import Mathlib

/-!
Verification of the task-management library of a to-do list manager
(`src/tasks.py`, `bug_fixed/tasks.py`, `src/app.py`).

Tasks are Python dictionaries; we embed them as association lists from
string keys to a `Value` type covering the JSON scalars that occur in
task records plus `datetime.date` objects (used by the bug-fixed
variant of the library).  Python `dict` lookup, `dict.get`,
`dict.__setitem__` and `dict.update` are embedded as `pyGet`, `pyGetD`,
`setKey` and `dictUpdate`.  Dates are embedded as year/month/day
triples with the proleptic-Gregorian validity predicate used by
`datetime.date`; `strftime("%Y-%m-%d")` and `strptime(_, "%Y-%m-%d")`
are embedded as `toISO` and `fromISO` (on the zero-padded ISO form that
`strftime` emits; `strptime`'s additional tolerance for unpadded
month/day digits is not modelled, no claim involves such inputs).
-/

/-- Values that occur in task records: JSON scalars plus `datetime.date`
objects (the bug-fixed library stores due dates as date objects in
memory). -/
inductive Value where
  | int (n : Int)
  | str (s : String)
  | bool (b : Bool)
  | null
  | date (y m d : Nat)
  deriving DecidableEq, Repr

/-- A task record: a Python dict embedded as an association list
(first binding for a key wins, mirroring dict-lookup; Python dicts
never hold duplicate keys, and all operations below preserve that). -/
abbrev TaskRec := List (String × Value)

/-- Python `task[k]` / `k in task`: first binding for `k`, if any. -/
def pyGet : TaskRec → String → Option Value
  | [], _ => none
  | (k', v) :: rest, k => if k' = k then some v else pyGet rest k

/-- Python `task.get(k, dflt)`. -/
def pyGetD (t : TaskRec) (k : String) (dflt : Value) : Value :=
  (pyGet t k).getD dflt

/-- Python `task[k] = v`: replace the first binding of `k` in place,
append at the end when `k` is absent (dict insertion order). -/
def setKey : TaskRec → String → Value → TaskRec
  | [], k, v => [(k, v)]
  | (k', v') :: rest, k, v =>
    if k' = k then (k, v) :: rest else (k', v') :: setKey rest k v

/-- Python `t.update(u)`: assign each binding of `u` into `t` in order. -/
def dictUpdate (t u : TaskRec) : TaskRec :=
  u.foldl (fun acc kv => setKey acc kv.1 kv.2) t

/-- Python truthiness of a `Value` (`bool(v)`). -/
def pyTruthy : Value → Bool
  | .int n => n != 0
  | .str s => s != ""
  | .bool b => b
  | .null => false
  | .date _ _ _ => true

/-! ## Calendar dates (`datetime.date`) -/

/-- A calendar date, as held by a Python `datetime.date` object. -/
structure Date where
  year : Nat
  month : Nat
  day : Nat
  deriving DecidableEq, Repr

/-- Gregorian leap-year rule (Python `calendar.isleap`). -/
def isLeapYear (y : Nat) : Bool :=
  (y % 4 == 0 && y % 100 != 0) || y % 400 == 0

/-- Length of a month in the given year. -/
def daysInMonth (y m : Nat) : Nat :=
  if m = 2 then (if isLeapYear y then 29 else 28)
  else if m = 4 ∨ m = 6 ∨ m = 9 ∨ m = 11 then 30
  else 31

/-- The dates representable by `datetime.date` (year 1–9999, valid
month and day-of-month). -/
def Date.Valid (dt : Date) : Prop :=
  1 ≤ dt.year ∧ dt.year ≤ 9999 ∧ 1 ≤ dt.month ∧ dt.month ≤ 12 ∧
    1 ≤ dt.day ∧ dt.day ≤ daysInMonth dt.year dt.month

instance (dt : Date) : Decidable dt.Valid := by
  unfold Date.Valid; infer_instance

/-- The decimal digit character for `n` (callers always pass `n % 10`). -/
def digitChar (n : Nat) : Char :=
  match n with
  | 0 => '0' | 1 => '1' | 2 => '2' | 3 => '3' | 4 => '4'
  | 5 => '5' | 6 => '6' | 7 => '7' | 8 => '8' | _ => '9'

/-- Numeric value of a decimal digit character. -/
def digitVal (c : Char) : Nat := c.toNat - 48

/-- Two-digit zero-padded decimal rendering (`%m`, `%d`). -/
def pad2 (n : Nat) : List Char := [digitChar (n / 10 % 10), digitChar (n % 10)]

/-- Four-digit zero-padded decimal rendering (`%Y`). -/
def pad4 (n : Nat) : List Char :=
  [digitChar (n / 1000 % 10), digitChar (n / 100 % 10),
   digitChar (n / 10 % 10), digitChar (n % 10)]

/-- Python `date.strftime("%Y-%m-%d")`. -/
def toISO (dt : Date) : String :=
  String.mk (pad4 dt.year ++ '-' :: (pad2 dt.month ++ '-' :: pad2 dt.day))

/-- Parse two decimal digits. -/
def parse2 (c1 c2 : Char) : Option Nat :=
  if c1.isDigit && c2.isDigit then some (digitVal c1 * 10 + digitVal c2)
  else none

/-- Parse four decimal digits. -/
def parse4 (c1 c2 c3 c4 : Char) : Option Nat :=
  if c1.isDigit && c2.isDigit && c3.isDigit && c4.isDigit then
    some (((digitVal c1 * 10 + digitVal c2) * 10 + digitVal c3) * 10 + digitVal c4)
  else none

/-- Python `datetime.strptime(s, "%Y-%m-%d")` (returning the `.date()`
part), on the zero-padded ISO form; `none` models the `ValueError`
raised on any other input, including out-of-range dates. -/
def fromISO (s : String) : Option Date :=
  match s.data with
  | [y1, y2, y3, y4, h1, m1, m2, h2, d1, d2] =>
    if h1 == '-' && h2 == '-' then
      match parse4 y1 y2 y3 y4, parse2 m1 m2, parse2 d1 d2 with
      | some y, some m, some d =>
        if Date.Valid ⟨y, m, d⟩ then some ⟨y, m, d⟩ else none
      | _, _, _ => none
    else none
  | _ => none

/-- Python `str.__lt__` on the underlying code-point sequences:
strict lexicographic comparison. -/
def charListLt : List Char → List Char → Bool
  | [], [] => false
  | [], _ :: _ => true
  | _ :: _, [] => false
  | a :: as, b :: bs =>
    if a.toNat < b.toNat then true
    else if a.toNat = b.toNat then charListLt as bs
    else false

/-- Python `str.__le__` on the underlying code-point sequences:
lexicographic comparison. -/
def charListLe : List Char → List Char → Bool
  | [], _ => true
  | _ :: _, [] => false
  | a :: as, b :: bs =>
    if a.toNat < b.toNat then true
    else if a.toNat = b.toNat then charListLe as bs
    else false

/-- Python `s < t` for strings. -/
def strLt (s t : String) : Bool := charListLt s.data t.data

/-- Python `s <= t` for strings, as the category sort order. -/
def strLe (s t : String) : Prop := charListLe s.data t.data = true

instance : DecidableRel strLe := fun s t => by
  unfold strLe; infer_instance

/-- Python `date.__le__`: lexicographic on (year, month, day). -/
def dateLe (a b : Date) : Prop :=
  a.year < b.year ∨ (a.year = b.year ∧
    (a.month < b.month ∨ (a.month = b.month ∧ a.day ≤ b.day)))

instance : DecidableRel dateLe := fun a b => by
  unfold dateLe; infer_instance

/-- Python `date.__lt__`: strict lexicographic on (year, month, day). -/
def dateLt (a b : Date) : Prop :=
  a.year < b.year ∨ (a.year = b.year ∧
    (a.month < b.month ∨ (a.month = b.month ∧ a.day < b.day)))

instance : DecidableRel dateLt := fun a b => by
  unfold dateLt; infer_instance

/-- Successor day in the Gregorian calendar; `none` models the
`OverflowError` of stepping past `datetime.date.max` (9999-12-31). -/
def Date.next (dt : Date) : Option Date :=
  if dt.day < daysInMonth dt.year dt.month then some ⟨dt.year, dt.month, dt.day + 1⟩
  else if dt.month < 12 then some ⟨dt.year, dt.month + 1, 1⟩
  else if dt.year < 9999 then some ⟨dt.year + 1, 1, 1⟩
  else none

/-- Python `base_date + timedelta(days=n)`: `n`-fold successor day,
with `none` for the `OverflowError` raised when the result would leave
the range representable by `datetime.date` (at most year 9999). -/
def addDays (dt : Date) : Nat → Option Date
  | 0 => some dt
  | n + 1 =>
    match addDays dt n with
    | some d => d.next
    | none => none

/-! ## Digit and round-trip lemmas -/

theorem digitChar_isDigit : ∀ k, k < 10 → (digitChar k).isDigit = true := by
  decide

theorem digitVal_digitChar : ∀ k, k < 10 → digitVal (digitChar k) = k := by
  decide

theorem mod10_lt (n : Nat) : n % 10 < 10 := Nat.mod_lt _ (by decide)

theorem parse2_pad2 (n : Nat) :
    parse2 (digitChar (n / 10 % 10)) (digitChar (n % 10)) = some (n / 10 % 10 * 10 + n % 10) := by
  unfold parse2
  rw [digitChar_isDigit _ (mod10_lt _), digitChar_isDigit _ (mod10_lt _),
    digitVal_digitChar _ (mod10_lt _), digitVal_digitChar _ (mod10_lt _)]
  simp

theorem parse4_pad4 (n : Nat) (h : n < 10000) :
    parse4 (digitChar (n / 1000 % 10)) (digitChar (n / 100 % 10))
      (digitChar (n / 10 % 10)) (digitChar (n % 10)) = some n := by
  unfold parse4
  rw [digitChar_isDigit _ (mod10_lt _), digitChar_isDigit _ (mod10_lt _),
    digitChar_isDigit _ (mod10_lt _), digitChar_isDigit _ (mod10_lt _),
    digitVal_digitChar _ (mod10_lt _), digitVal_digitChar _ (mod10_lt _),
    digitVal_digitChar _ (mod10_lt _), digitVal_digitChar _ (mod10_lt _)]
  simp only [Bool.and_self, if_true, Option.some.injEq]
  omega

theorem daysInMonth_le (y m : Nat) : daysInMonth y m ≤ 31 := by
  unfold daysInMonth
  split
  · split <;> omega
  · split <;> omega

/-- A valid date round-trips losslessly through its ISO string form. -/
theorem fromISO_toISO (dt : Date) (h : dt.Valid) : fromISO (toISO dt) = some dt := by
  obtain ⟨y, m, d⟩ := dt
  unfold Date.Valid at h
  dsimp only at h
  obtain ⟨h1, h2, h3, h4, h5, h6⟩ := h
  have hdm := daysInMonth_le y m
  unfold toISO pad4 pad2
  dsimp only
  unfold fromISO
  simp only [List.cons_append, List.nil_append]
  rw [parse4_pad4 y (by omega)]
  rw [parse2_pad2 m, parse2_pad2 d]
  have hm' : m / 10 % 10 * 10 + m % 10 = m := by omega
  have hd' : d / 10 % 10 * 10 + d % 10 = d := by omega
  rw [hm', hd']
  simp only [beq_self_eq_true, Bool.and_self, if_true]
  rw [if_pos ⟨h1, h2, h3, h4, h5, h6⟩]

/-! ## The task store (`tasks.py`)

Two variants of the library exist in the repository: the original
`src/tasks.py` (shared with `src/app.py`) and the repaired
`bug_fixed/tasks.py`.  Where they differ, both are embedded, the
repaired one with a `_fixed` suffix. -/

/-- State of the persisted JSON file as seen by `load_tasks`: missing
(`FileNotFoundError`), syntactically invalid (`json.JSONDecodeError`),
or a well-formed JSON array of objects. -/
inductive FileState where
  | absent
  | invalid
  | json (ts : List TaskRec)

/-- Python `load_tasks` of `src/tasks.py` / `src/app.py`: the parsed
array on success, `[]` when the file is absent or its JSON is invalid
(both exceptions are caught). -/
def load_tasks : FileState → List TaskRec
  | .absent => []
  | .invalid => []
  | .json ts => ts

/-- Per-record due-date repair of `bug_fixed.load_tasks`: a string
`due_date` is parsed with `strptime("%Y-%m-%d")`, and replaced by
`None` when parsing fails. -/
def load_convert (t : TaskRec) : TaskRec :=
  match pyGet t "due_date" with
  | some (.str s) =>
    match fromISO s with
    | some dt => setKey t "due_date" (.date dt.year dt.month dt.day)
    | none => setKey t "due_date" .null
  | _ => t

/-- Python `load_tasks` of `bug_fixed/tasks.py`: as `load_tasks`, but
string due dates are converted to date objects (`None` on parse
failure). -/
def load_tasks_fixed : FileState → List TaskRec
  | .absent => []
  | .invalid => []
  | .json ts => ts.map load_convert

/-- Per-record serialization step of `bug_fixed.save_tasks`: the record
is copied and a date-object `due_date` is rendered with
`strftime("%Y-%m-%d")`. -/
def save_convert (t : TaskRec) : TaskRec :=
  match pyGet t "due_date" with
  | some (.date y m d) => setKey t "due_date" (.str (toISO ⟨y, m, d⟩))
  | _ => t

/-- Python `save_tasks` of `bug_fixed/tasks.py`, as the list of records
written to the file (JSON serialization of the scalar fields is
faithful, so the written array is the converted list itself). -/
def save_tasks_fixed (ts : List TaskRec) : List TaskRec :=
  ts.map save_convert

/-- Python `task["id"]` as an integer: `none` models the `KeyError` on
a missing key (a non-integer id would likewise poison `max`). -/
def taskIdInt (t : TaskRec) : Option Int :=
  match pyGet t "id" with
  | some (.int n) => some n
  | _ => none

/-- The generator `(task["id"] for task in tasks)` of
`generate_unique_id`, with `none` when any record lacks an integer id. -/
def idsOf : List TaskRec → Option (List Int)
  | [] => some []
  | t :: ts =>
    match taskIdInt t, idsOf ts with
    | some n, some ns => some (n :: ns)
    | _, _ => none

/-- Python `max` over a non-empty list of integers. -/
def pyMaxInt : List Int → Option Int
  | [] => none
  | x :: xs => some (xs.foldl max x)

/-- Python `generate_unique_id`: `1` for an empty sequence, otherwise
`max(task["id"] for task in tasks) + 1`; `none` models the exception on
a record without an integer id. -/
def generate_unique_id (tasks : List TaskRec) : Option Int :=
  if tasks.isEmpty then some 1
  else
    match idsOf tasks with
    | some ids => (pyMaxInt ids).map (· + 1)
    | none => none

/-- Python `filter_tasks_by_priority` (identical in all variants):
keeps records with `task.get("priority") == priority`. -/
def filter_tasks_by_priority (tasks : List TaskRec) (priority : Value) : List TaskRec :=
  tasks.filter (fun t => decide (pyGetD t "priority" .null = priority))

/-- Python `filter_tasks_by_category` (identical in all variants):
keeps records with `task.get("category") == category`. -/
def filter_tasks_by_category (tasks : List TaskRec) (category : Value) : List TaskRec :=
  tasks.filter (fun t => decide (pyGetD t "category" .null = category))

/-- Python `filter_tasks_by_completion` of `src/tasks.py` and
`bug_fixed/tasks.py`: keeps records with
`task.get("completed") == completed` (no default: a missing field reads
as `None`). -/
def filter_tasks_by_completion (tasks : List TaskRec) (completed : Value) : List TaskRec :=
  tasks.filter (fun t => decide (pyGetD t "completed" .null = completed))

/-- Python `filter_tasks_by_completion` of `src/app.py`: keeps records
with `task.get("completed", False) == completed` (a missing field reads
as `False`). -/
def filter_tasks_by_completion_app (tasks : List TaskRec) (completed : Value) : List TaskRec :=
  tasks.filter (fun t => decide (pyGetD t "completed" (.bool false) = completed))

/-- The per-record test of `get_overdue_tasks` in `src/tasks.py`:
`not task.get("completed", False) and task.get("due_date", "") < today`
with `today = datetime.now().strftime("%Y-%m-%d")` and `<` the Python
string comparison; `none` models the `TypeError` when a present
`due_date` is not a string (short-circuiting: never reached when the
record is completed). -/
def overdueTest (today : String) (t : TaskRec) : Option Bool :=
  if pyTruthy (pyGetD t "completed" (.bool false)) then some false
  else
    match pyGetD t "due_date" (.str "") with
    | .str s => some (strLt s today)
    | _ => none

/-- The list comprehension of `get_overdue_tasks` in `src/tasks.py`. -/
def get_overdue_tasks (today : String) : List TaskRec → Option (List TaskRec)
  | [] => some []
  | t :: ts =>
    match overdueTest today t, get_overdue_tasks today ts with
    | some true, some r => some (t :: r)
    | some false, some r => some r
    | _, _ => none

/-- The per-record test of `get_overdue_tasks` in `bug_fixed/tasks.py`:
`not task.get("completed", False) and task.get("due_date") and
task["due_date"] < today` with `today = date.today()`; a falsy or
missing `due_date` short-circuits to exclusion, and `none` models the
`TypeError` of comparing a truthy non-date value with a date. -/
def overdueTestFixed (today : Date) (t : TaskRec) : Option Bool :=
  if pyTruthy (pyGetD t "completed" (.bool false)) then some false
  else
    let v := pyGetD t "due_date" .null
    if pyTruthy v then
      match v with
      | .date y m d => some (decide (dateLt ⟨y, m, d⟩ today))
      | _ => none
    else some false

/-- The list comprehension of `get_overdue_tasks` in
`bug_fixed/tasks.py`. -/
def get_overdue_tasks_fixed (today : Date) : List TaskRec → Option (List TaskRec)
  | [] => some []
  | t :: ts =>
    match overdueTestFixed today t, get_overdue_tasks_fixed today ts with
    | some true, some r => some (t :: r)
    | some false, some r => some r
    | _, _ => none

/-- The scan loop of Python `edit_task`: walk the loaded store, update
the first record whose `task["id"]` equals `task_id` in place, raise
`ValueError` ("NotFound") when the walk finishes without a match;
`KeyError` models a record without an `"id"` key. -/
def edit_task_go (task_id : Value) (updated_task : TaskRec) :
    List TaskRec → Except String (List TaskRec)
  | [] => .error "NotFound"
  | t :: ts =>
    match pyGet t "id" with
    | none => .error "KeyError"
    | some v =>
      if v = task_id then .ok (dictUpdate t updated_task :: ts)
      else (edit_task_go task_id updated_task ts).map (t :: ·)

/-- Python `edit_task` of `src/tasks.py` / `src/app.py`, with the
load/save pair made explicit as a state-passing function: the input
list is the loaded store and the `.ok` result is the store persisted
back by `save_tasks`. -/
def edit_task (task_id : Value) (updated_task : TaskRec) (tasks : List TaskRec) :
    Except String (List TaskRec) :=
  edit_task_go task_id updated_task tasks

/-- Sort key of the `"due_date"` branch of `sort_tasks`:
`datetime.strptime(x["due_date"], "%Y-%m-%d")`; `none` models the
`KeyError`/`TypeError`/`ValueError` on a missing, non-string or
unparseable due date. -/
def dueKey (t : TaskRec) : Option Date :=
  match pyGet t "due_date" with
  | some (.str s) => fromISO s
  | _ => none

/-- The dict `priority_order = {"High": 1, "Medium": 2, "Low": 3}` of
`sort_tasks`, looked up at a task's priority value; `none` models the
`KeyError` on any other value. -/
def priority_order (v : Value) : Option Nat :=
  match v with
  | .str "High" => some 1
  | .str "Medium" => some 2
  | .str "Low" => some 3
  | _ => none

/-- Sort key of the `"priority"` branch of `sort_tasks`:
`priority_order[x["priority"]]`; `none` models the `KeyError` on a
missing priority or one outside the dict. -/
def priorityKey (t : TaskRec) : Option Nat :=
  match pyGet t "priority" with
  | some v => priority_order v
  | none => none

/-- Sort key of the `"category"` branch of `sort_tasks`:
`x["category"]`; `none` models the `KeyError` on a missing category (a
non-string category, which Python would only reject when `sorted`
compares it against a string, is folded into key extraction here). -/
def categoryKey (t : TaskRec) : Option String :=
  match pyGet t "category" with
  | some (.str s) => some s
  | _ => none

/-- The decorate step of Python `sorted(tasks, key=f)`: evaluate the
key once per record; any key failure aborts the sort with the
corresponding exception. -/
def keyPairs {κ : Type} (f : TaskRec → Option κ) : List TaskRec → Option (List (κ × TaskRec))
  | [] => some []
  | t :: ts =>
    match f t, keyPairs f ts with
    | some k, some ps => some ((k, t) :: ps)
    | _, _ => none

/-- Comparison of decorated records by their keys alone. -/
def pairLe {κ : Type} (kle : κ → κ → Prop) (a b : κ × TaskRec) : Prop :=
  kle a.1 b.1

instance {κ : Type} (kle : κ → κ → Prop) [DecidableRel kle] :
    DecidableRel (@pairLe κ kle) := fun a b => by
  unfold pairLe; infer_instance

/-- The sort step of Python `sorted(tasks, key=f)`: a stable sort of
the decorated records by key (Python's Timsort is a stable sort, so its
output is this insertion sort's output). -/
def sortWithKeys {κ : Type} (kle : κ → κ → Prop) [DecidableRel kle]
    (ps : List (κ × TaskRec)) : List TaskRec :=
  (List.insertionSort (pairLe kle) ps).map Prod.snd

/-- Python `sort_tasks`: `[]` for an empty input (before the key is
inspected); otherwise a stable sort by the branch's key for the three
recognized keys, and `ValueError` ("InvalidArgument") for any other
key. -/
def sort_tasks (tasks : List TaskRec) (sort_by : String) : Except String (List TaskRec) :=
  if tasks = [] then .ok []
  else if sort_by = "due_date" then
    match keyPairs dueKey tasks with
    | some ps => .ok (sortWithKeys dateLe ps)
    | none => .error "strptime"
  else if sort_by = "priority" then
    match keyPairs priorityKey tasks with
    | some ps => .ok (sortWithKeys (fun a b : Nat => a ≤ b) ps)
    | none => .error "KeyError"
  else if sort_by = "category" then
    match keyPairs categoryKey tasks with
    | some ps => .ok (sortWithKeys strLe ps)
    | none => .error "KeyError"
  else .error ("Invalid sort_by value: " ++ sort_by)

/-- The record built by one iteration of the `create_recurring_tasks`
loop for index `i`, given the already-computed date
`base_date + timedelta(days=i)`: copy the base task, then assign
`id = generate_unique_id([]) + i`, the ISO rendering of the new date,
and `created_at = now` (the formatted `datetime.now()`, passed
explicitly); `generate_unique_id []` never fails, so its `getD 0` is
never the default (proved below). -/
def recurringInstance (now : String) (task : TaskRec) (new_date : Date) (i : Nat) : TaskRec :=
  setKey
    (setKey
      (setKey task "id" (.int ((generate_unique_id []).getD 0 + (i : Int))))
      "due_date" (.str (toISO new_date)))
    "created_at" (.str now)

/-- The `for i in range(instances)` loop of `create_recurring_tasks`,
processing the `k` indices `i, i+1, ..., i+k-1`: each iteration
computes `base_date + timedelta(days=index)` — aborting the whole call
with `OverflowError` (`none`) when that leaves the representable
range — and appends the instance record. -/
def create_recurring_go (now : String) (task : TaskRec) (base : Date) :
    Nat → Nat → Option (List TaskRec)
  | _, 0 => some []
  | i, k + 1 =>
    match addDays base i with
    | some new_date =>
      match create_recurring_go now task base (i + 1) k with
      | some rest => some (recurringInstance now task new_date i :: rest)
      | none => none
    | none => none

/-- Python `create_recurring_tasks`: parse the base task's due date
(raising on a missing, non-string or unparseable one), then run the
instance loop, which produces one copy per loop index or raises
`OverflowError` when a stepped date passes `datetime.date.max`. -/
def create_recurring_tasks (now : String) (task : TaskRec) (instances : Nat) :
    Option (List TaskRec) :=
  match pyGet task "due_date" with
  | some (.str s) =>
    match fromISO s with
    | some base_date => create_recurring_go now task base_date 0 instances
    | none => none
  | _ => none

/-! ## Dictionary lemmas -/

theorem pyGet_setKey_self (t : TaskRec) (k : String) (v : Value) :
    pyGet (setKey t k v) k = some v := by
  induction t with
  | nil => simp [setKey, pyGet]
  | cons kv rest ih =>
    obtain ⟨k', v'⟩ := kv
    unfold setKey
    by_cases h : k' = k
    · simp [h, pyGet]
    · simp [h, pyGet, ih]

theorem pyGet_setKey_ne (t : TaskRec) (k k' : String) (v : Value) (h : k' ≠ k) :
    pyGet (setKey t k v) k' = pyGet t k' := by
  induction t with
  | nil =>
    simp only [setKey, pyGet]
    rw [if_neg h.symm]
  | cons kv rest ih =>
    obtain ⟨k0, v0⟩ := kv
    simp only [setKey]
    split_ifs with h0
    · subst h0
      simp only [pyGet]
      rw [if_neg h.symm, if_neg h.symm]
    · simp only [pyGet]
      split_ifs with h1
      · rfl
      · exact ih

theorem setKey_setKey (t : TaskRec) (k : String) (v v' : Value) :
    setKey (setKey t k v) k v' = setKey t k v' := by
  induction t with
  | nil => simp [setKey]
  | cons kv rest ih =>
    obtain ⟨k0, v0⟩ := kv
    unfold setKey
    by_cases h0 : k0 = k
    · simp [h0, setKey]
    · simp [h0, setKey, ih]

theorem setKey_pyGet_eq (t : TaskRec) (k : String) (v : Value)
    (h : pyGet t k = some v) : setKey t k v = t := by
  induction t with
  | nil => simp [pyGet] at h
  | cons kv rest ih =>
    obtain ⟨k0, v0⟩ := kv
    unfold pyGet at h
    unfold setKey
    by_cases h0 : k0 = k
    · subst h0
      simp at h
      simp [h]
    · simp [h0] at h ⊢
      exact ih h

theorem pyGet_mem_keys {t : TaskRec} {k : String} {v : Value}
    (h : pyGet t k = some v) : k ∈ t.map Prod.fst := by
  induction t with
  | nil => simp [pyGet] at h
  | cons kv rest ih =>
    obtain ⟨k0, v0⟩ := kv
    unfold pyGet at h
    by_cases h0 : k0 = k
    · simp [h0]
    · simp [h0] at h
      simp [ih h]

theorem pyGet_eq_none_of_not_mem {u : TaskRec} {k : String}
    (h : k ∉ u.map Prod.fst) : pyGet u k = none := by
  cases hpu : pyGet u k with
  | none => rfl
  | some v => exact absurd (pyGet_mem_keys hpu) h

theorem pyGet_dictUpdate (u : TaskRec) (t : TaskRec)
    (hu : (u.map Prod.fst).Nodup) (k : String) :
    pyGet (dictUpdate t u) k =
      match pyGet u k with
      | some v => some v
      | none => pyGet t k := by
  induction u generalizing t with
  | nil => simp [dictUpdate, pyGet]
  | cons kv u ih =>
    obtain ⟨k0, v0⟩ := kv
    simp only [List.map_cons, List.nodup_cons] at hu
    obtain ⟨hk0, hu'⟩ := hu
    have hstep : dictUpdate t ((k0, v0) :: u) = dictUpdate (setKey t k0 v0) u := rfl
    rw [hstep, ih (setKey t k0 v0) hu']
    by_cases h0 : k0 = k
    · subst h0
      rw [pyGet_eq_none_of_not_mem hk0]
      simp only [pyGet, if_pos rfl]
      exact pyGet_setKey_self t k0 v0
    · have hcons : pyGet ((k0, v0) :: u) k = pyGet u k := by
        simp only [pyGet]
        rw [if_neg h0]
      rw [hcons]
      cases hpu : pyGet u k with
      | none => exact pyGet_setKey_ne t k0 k v0 (fun hh => h0 hh.symm)
      | some v => rfl

/-! ## Claim theorems -/

/-- C2: `load_tasks` (both variants) returns the empty sequence when
the file is absent or contains invalid JSON; as total functions of the
file state they raise nothing. -/
theorem load_tasks_error_recovery (fs : FileState)
    (h : fs = FileState.absent ∨ fs = FileState.invalid) :
    load_tasks fs = [] ∧ load_tasks_fixed fs = [] := by
  rcases h with h | h <;> subst h <;> exact ⟨rfl, rfl⟩

/-- Witness for C2 at a concrete file state. -/
theorem load_tasks_error_recovery_witness :
    load_tasks FileState.invalid = [] ∧ load_tasks_fixed FileState.invalid = [] :=
  load_tasks_error_recovery FileState.invalid (Or.inr rfl)

/-- A task with a valid date-object `due_date` survives the
save-then-load conversion unchanged. -/
theorem load_save_convert (t : TaskRec)
    (h : ∃ y m d, pyGet t "due_date" = some (Value.date y m d) ∧ (Date.mk y m d).Valid) :
    load_convert (save_convert t) = t := by
  obtain ⟨y, m, d, hget, hvalid⟩ := h
  have hs : save_convert t = setKey t "due_date" (Value.str (toISO ⟨y, m, d⟩)) := by
    unfold save_convert
    rw [hget]
  rw [hs]
  unfold load_convert
  rw [pyGet_setKey_self]
  simp only [fromISO_toISO ⟨y, m, d⟩ hvalid]
  rw [setKey_setKey]
  exact setKey_pyGet_eq t "due_date" (Value.date y m d) hget

/-- C3: saving a valid task sequence and loading it back yields the
original sequence: each task's `due_date` round-trips losslessly
through its ISO string serialization (second conjunct), so the
load-after-save composition is the identity (first conjunct).  A valid
task holds a date object at `due_date` representable by
`datetime.date`, and date objects nowhere else (elsewhere they would
not be JSON-serializable). -/
theorem save_then_load_roundtrip (ts : List TaskRec)
    (h : ∀ t ∈ ts,
      (∃ y m d, pyGet t "due_date" = some (Value.date y m d) ∧ (Date.mk y m d).Valid) ∧
      (∀ kv ∈ t, kv.1 ≠ "due_date" → ∀ y m d, kv.2 ≠ Value.date y m d)) :
    load_tasks_fixed (FileState.json (save_tasks_fixed ts)) = ts ∧
    (∀ dt : Date, dt.Valid → fromISO (toISO dt) = some dt) := by
  constructor
  · show (save_tasks_fixed ts).map load_convert = ts
    unfold save_tasks_fixed
    rw [List.map_map]
    have : ∀ t ∈ ts, (load_convert ∘ save_convert) t = id t := by
      intro t ht
      exact load_save_convert t (h t ht).1
    rw [List.map_congr_left this, List.map_id]
  · exact fun dt hv => fromISO_toISO dt hv

/-- Witness for C3: a concrete one-task store round-trips. -/
theorem save_then_load_roundtrip_witness :
    load_tasks_fixed (FileState.json (save_tasks_fixed
      [[("id", Value.int 1), ("due_date", Value.date 2024 8 1)]])) =
      [[("id", Value.int 1), ("due_date", Value.date 2024 8 1)]] := by
  refine (save_then_load_roundtrip _ ?_).1
  intro t ht
  simp only [List.mem_singleton] at ht
  subst ht
  refine ⟨⟨2024, 8, 1, by decide, by decide⟩, ?_⟩
  intro kv hkv hne y m d
  simp only [List.mem_cons] at hkv
  rcases hkv with h1 | h1 | h1
  · subst h1
    simp
  · subst h1
    exact absurd rfl hne
  · exact absurd h1 (List.not_mem_nil kv)

/-! ## generate_unique_id (C8) -/

theorem foldl_max_spec (xs : List Int) (x : Int) :
    (xs.foldl max x = x ∨ xs.foldl max x ∈ xs) ∧
    x ≤ xs.foldl max x ∧ ∀ i ∈ xs, i ≤ xs.foldl max x := by
  induction xs generalizing x with
  | nil => exact ⟨Or.inl rfl, le_refl x, by simp⟩
  | cons a xs ih =>
    have hstep : (a :: xs).foldl max x = xs.foldl max (max x a) := rfl
    obtain ⟨hmem, hle, hall⟩ := ih (max x a)
    refine ⟨?_, ?_, ?_⟩
    · rw [hstep]
      rcases hmem with h | h
      · rcases max_choice x a with hc | hc
        · exact Or.inl (h.trans hc)
        · exact Or.inr (by rw [h, hc]; exact List.mem_cons_self a xs)
      · exact Or.inr (List.mem_cons_of_mem a h)
    · rw [hstep]
      exact (le_max_left x a).trans hle
    · intro i hi
      rw [hstep]
      rcases List.mem_cons.mp hi with h | h
      · subst h
        exact (le_max_right x i).trans hle
      · exact hall i h

theorem idsOf_mem {tasks : List TaskRec} {ids : List Int}
    (h : idsOf tasks = some ids) :
    ∀ t ∈ tasks, ∀ n, taskIdInt t = some n → n ∈ ids := by
  induction tasks generalizing ids with
  | nil => intro t ht; exact absurd ht (List.not_mem_nil t)
  | cons t0 ts ih =>
    intro t ht n hn
    unfold idsOf at h
    cases h0 : taskIdInt t0 with
    | none => rw [h0] at h; exact absurd h (by simp)
    | some n0 =>
      rw [h0] at h
      cases h1 : idsOf ts with
      | none => rw [h1] at h; exact absurd h (by simp)
      | some ns =>
        rw [h1] at h
        simp only [Option.some.injEq] at h
        subst h
        rcases List.mem_cons.mp ht with hh | hh
        · subst hh
          rw [h0] at hn
          simp only [Option.some.injEq] at hn
          subst hn
          exact List.mem_cons_self n0 ns
        · exact List.mem_cons_of_mem n0 (ih h1 t hh n hn)

/-- C8: `generate_unique_id` returns `1` on the empty sequence; on any
non-empty sequence of records with integer ids it returns `m + 1` where
`m` is the maximum id present, so the result is strictly greater than
every id in the input. -/
theorem generate_unique_id_spec (tasks : List TaskRec) (ids : List Int)
    (hne : tasks ≠ []) (hids : idsOf tasks = some ids) :
    generate_unique_id [] = some 1 ∧
    ∃ m : Int, pyMaxInt ids = some m ∧
      generate_unique_id tasks = some (m + 1) ∧
      m ∈ ids ∧ (∀ i ∈ ids, i ≤ m) ∧
      ∀ t ∈ tasks, ∀ n, taskIdInt t = some n → n < m + 1 := by
  refine ⟨rfl, ?_⟩
  cases tasks with
  | nil => exact absurd rfl hne
  | cons t0 ts =>
    have hidne : ∃ n0 ns, ids = n0 :: ns := by
      unfold idsOf at hids
      cases h0 : taskIdInt t0 with
      | none => rw [h0] at hids; exact absurd hids (by simp)
      | some n0 =>
        rw [h0] at hids
        cases h1 : idsOf ts with
        | none => rw [h1] at hids; exact absurd hids (by simp)
        | some ns =>
          rw [h1] at hids
          simp only [Option.some.injEq] at hids
          exact ⟨n0, ns, hids.symm⟩
    obtain ⟨n0, ns, hcons⟩ := hidne
    subst hcons
    obtain ⟨hmem, hle, hall⟩ := foldl_max_spec ns n0
    refine ⟨ns.foldl max n0, rfl, ?_, ?_, ?_, ?_⟩
    · unfold generate_unique_id
      rw [if_neg (by simp)]
      rw [hids]
      rfl
    · rcases hmem with h | h
      · rw [h]; exact List.mem_cons_self n0 ns
      · exact List.mem_cons_of_mem n0 h
    · intro i hi
      rcases List.mem_cons.mp hi with h | h
      · subst h; exact hle
      · exact hall i h
    · intro t ht n hn
      have hmem' : n ∈ n0 :: ns := idsOf_mem hids t ht n hn
      have : n ≤ ns.foldl max n0 := by
        rcases List.mem_cons.mp hmem' with h | h
        · subst h; exact hle
        · exact hall n h
      omega

/-- Witness for C8 at a concrete two-task store. -/
theorem generate_unique_id_spec_witness :
    generate_unique_id
      [[("id", Value.int 3)], [("id", Value.int 7)]] = some 8 := by
  obtain ⟨-, m, hmax, hgen, -, -, -⟩ :=
    generate_unique_id_spec [[("id", Value.int 3)], [("id", Value.int 7)]]
      [3, 7] (by simp) (by decide)
  have hm : m = 7 := by
    have : pyMaxInt [3, 7] = some 7 := by decide
    rw [this] at hmax
    exact (Option.some.injEq _ _).mp hmax.symm
  rw [hm] at hgen
  exact hgen

/-! ## Filters (C7) -/

/-- C7 counterexample: in the `src/app.py` completion filter a record
with no `completed` field matches the value `False` (because
`task.get("completed", False)` substitutes the default), so a record
with a missing field is not always treated as non-matching. -/
theorem filter_by_completion_missing_field_matches :
    filter_tasks_by_completion_app [[]] (Value.bool false) = [[]] ∧
    pyGet ([] : TaskRec) "completed" = none := by
  constructor
  · rfl
  · rfl

/-- C7 (amended): each filter returns, in input order (a sublist of the
input), exactly the records whose field — read with Python `get`, i.e.
substituting `None` for a missing priority/category/completion and
`False` for a missing completion in the `src/app.py` variant — equals
the given value; a record missing the field therefore matches exactly
the default marker and no other value; all four functions are total. -/
theorem filter_functions_spec (tasks : List TaskRec) (v : Value) (t : TaskRec) :
    (filter_tasks_by_priority tasks v).Sublist tasks ∧
    (filter_tasks_by_category tasks v).Sublist tasks ∧
    (filter_tasks_by_completion tasks v).Sublist tasks ∧
    (filter_tasks_by_completion_app tasks v).Sublist tasks ∧
    (t ∈ filter_tasks_by_priority tasks v ↔ t ∈ tasks ∧ pyGetD t "priority" Value.null = v) ∧
    (t ∈ filter_tasks_by_category tasks v ↔ t ∈ tasks ∧ pyGetD t "category" Value.null = v) ∧
    (t ∈ filter_tasks_by_completion tasks v ↔ t ∈ tasks ∧ pyGetD t "completed" Value.null = v) ∧
    (t ∈ filter_tasks_by_completion_app tasks v ↔
      t ∈ tasks ∧ pyGetD t "completed" (Value.bool false) = v) ∧
    (pyGet t "priority" = none → v ≠ Value.null → t ∉ filter_tasks_by_priority tasks v) ∧
    (pyGet t "completed" = none → v ≠ Value.bool false →
      t ∉ filter_tasks_by_completion_app tasks v) := by
  refine ⟨List.filter_sublist tasks, List.filter_sublist tasks,
    List.filter_sublist tasks, List.filter_sublist tasks, ?_, ?_, ?_, ?_, ?_, ?_⟩
  · simp [filter_tasks_by_priority, List.mem_filter]
  · simp [filter_tasks_by_category, List.mem_filter]
  · simp [filter_tasks_by_completion, List.mem_filter]
  · simp [filter_tasks_by_completion_app, List.mem_filter]
  · intro hnone hne hmem
    have := (List.mem_filter.mp hmem).2
    simp only [decide_eq_true_eq] at this
    rw [pyGetD, hnone, Option.getD_none] at this
    exact hne this.symm
  · intro hnone hne hmem
    have := (List.mem_filter.mp hmem).2
    simp only [decide_eq_true_eq] at this
    rw [pyGetD, hnone, Option.getD_none] at this
    exact hne this.symm

/-- Witness for C7 (amended) at the spec's own example store. -/
theorem filter_functions_spec_witness :
    filter_tasks_by_priority
      [[("id", Value.int 1), ("priority", Value.str "High")],
       [("id", Value.int 2), ("priority", Value.str "Medium")],
       [("id", Value.int 3), ("priority", Value.str "High")]]
      (Value.str "High") =
      [[("id", Value.int 1), ("priority", Value.str "High")],
       [("id", Value.int 3), ("priority", Value.str "High")]] ∧
    [("id", Value.int 2), ("priority", Value.str "Medium")] ∉
      filter_tasks_by_priority
        [[("id", Value.int 1), ("priority", Value.str "High")],
         [("id", Value.int 2), ("priority", Value.str "Medium")],
         [("id", Value.int 3), ("priority", Value.str "High")]]
        (Value.str "High") := by
  constructor
  · decide
  · intro hmem
    have h := (filter_functions_spec
      [[("id", Value.int 1), ("priority", Value.str "High")],
       [("id", Value.int 2), ("priority", Value.str "Medium")],
       [("id", Value.int 3), ("priority", Value.str "High")]]
      (Value.str "High")
      [("id", Value.int 2), ("priority", Value.str "Medium")]).2.2.2.2.1
    have := (h.mp hmem).2
    exact absurd this (by decide)

/-! ## Overdue detection (C1) -/

/-- C1: at the failing input — a single record with no `due_date` field
and not completed — the `src/tasks.py` variant of `get_overdue_tasks`
returns the record as overdue (the default `""` compares strictly below
every date string), while the repaired `bug_fixed/tasks.py` variant
excludes it, as the claim requires. -/
theorem get_overdue_missing_due_date_bug :
    get_overdue_tasks "2024-01-01" [[]] = some [[]] ∧
    get_overdue_tasks_fixed ⟨2024, 1, 1⟩ [[]] = some [] ∧
    pyGet ([] : TaskRec) "due_date" = none ∧
    pyGetD ([] : TaskRec) "completed" (Value.bool false) = Value.bool false := by
  refine ⟨?_, rfl, rfl, rfl⟩
  show (match overdueTest "2024-01-01" [], get_overdue_tasks "2024-01-01" [] with
    | some true, some r => some ([] :: r)
    | some false, some r => some r
    | _, _ => none) = some [[]]
  have h1 : overdueTest "2024-01-01" [] = some true := by decide
  rw [h1]
  rfl

/-! ## edit_task (C4) -/

/-- C4: on a store whose records all carry an id, `edit_task` raises
NotFound exactly when no record's id equals `task_id` (first conjunct);
when the first match sits at position `i`, it replaces exactly that
record by the record with the update fields merged in and persists the
store otherwise unchanged (second conjunct); and the merge is Python
`dict.update`: a key of the update wins, every other key keeps its
value (third conjunct). -/
theorem edit_task_spec (task_id : Value) (upd : TaskRec) (tasks : List TaskRec)
    (hids : ∀ t ∈ tasks, ∃ v, pyGet t "id" = some v) :
    (edit_task task_id upd tasks = Except.error "NotFound" ↔
      ∀ t ∈ tasks, pyGet t "id" ≠ some task_id) ∧
    (∀ i : Nat, ∀ hi : i < tasks.length,
      pyGet (tasks.get ⟨i, hi⟩) "id" = some task_id →
      (∀ j : Nat, ∀ hj : j < i,
        pyGet (tasks.get ⟨j, Nat.lt_trans hj hi⟩) "id" ≠ some task_id) →
      edit_task task_id upd tasks =
        Except.ok (tasks.set i (dictUpdate (tasks.get ⟨i, hi⟩) upd))) ∧
    (∀ t u : TaskRec, (u.map Prod.fst).Nodup → ∀ k,
      pyGet (dictUpdate t u) k =
        match pyGet u k with
        | some v => some v
        | none => pyGet t k) := by
  refine ⟨?_, ?_, fun t u hu k => pyGet_dictUpdate u t hu k⟩
  · show edit_task_go task_id upd tasks = Except.error "NotFound" ↔ _
    induction tasks with
    | nil =>
      constructor
      · intro _ t ht
        exact absurd ht (List.not_mem_nil t)
      · intro _
        rfl
    | cons t0 ts ih =>
      obtain ⟨v0, hv0⟩ := hids t0 (List.mem_cons_self t0 ts)
      have ih' := ih (fun t ht => hids t (List.mem_cons_of_mem t0 ht))
      have hstep : edit_task_go task_id upd (t0 :: ts) =
          if v0 = task_id then Except.ok (dictUpdate t0 upd :: ts)
          else Except.map (fun x => t0 :: x) (edit_task_go task_id upd ts) := by
        simp only [edit_task_go]
        rw [hv0]
      rw [hstep]
      by_cases heq : v0 = task_id
      · subst heq
        rw [if_pos rfl]
        constructor
        · intro hcontra
          exact absurd hcontra (by simp)
        · intro hall
          exact absurd hv0 (hall t0 (List.mem_cons_self t0 ts))
      · rw [if_neg heq]
        cases hgo : edit_task_go task_id upd ts with
        | error e =>
          rw [hgo] at ih'
          constructor
          · intro hmap
            have he : e = "NotFound" := by
              have : (Except.error e : Except String (List TaskRec)) =
                  Except.error "NotFound" := by
                rw [← hmap]
                rfl
              exact (Except.error.injEq _ _).mp this
            subst he
            intro t ht
            rcases List.mem_cons.mp ht with hh | hh
            · subst hh
              rw [hv0]
              intro hc
              exact heq ((Option.some.injEq _ _).mp hc)
            · exact (ih'.mp rfl) t hh
          · intro hall
            have : edit_task_go task_id upd ts = Except.error "NotFound" := by
              have := ih'.mpr (fun t ht => hall t (List.mem_cons_of_mem t0 ht))
              rw [hgo]
              exact this
            rw [hgo] at this
            rw [(Except.error.injEq _ _).mp this]
            rfl
        | ok l =>
          constructor
          · intro hmap
            exact absurd hmap (by simp [Except.map])
          · intro hall
            have : edit_task_go task_id upd ts = Except.error "NotFound" :=
              ih'.mpr (fun t ht => hall t (List.mem_cons_of_mem t0 ht))
            rw [hgo] at this
            exact absurd this (by simp)
  · intro i hi hmatch hbefore
    show edit_task_go task_id upd tasks = _
    induction tasks generalizing i with
    | nil => exact absurd hi (Nat.not_lt_zero i)
    | cons t0 ts ih =>
      obtain ⟨v0, hv0⟩ := hids t0 (List.mem_cons_self t0 ts)
      cases i with
      | zero =>
        have hm : pyGet t0 "id" = some task_id := hmatch
        have hv0eq : v0 = task_id := by
          rw [hv0] at hm
          exact (Option.some.injEq _ _).mp hm
        have hstep : edit_task_go task_id upd (t0 :: ts) =
            if v0 = task_id then Except.ok (dictUpdate t0 upd :: ts)
            else Except.map (fun x => t0 :: x) (edit_task_go task_id upd ts) := by
          simp only [edit_task_go]
          rw [hv0]
        rw [hstep, if_pos hv0eq]
        rfl
      | succ j =>
        have hne0 : pyGet t0 "id" ≠ some task_id :=
          hbefore 0 (Nat.succ_pos j)
        have hv0ne : v0 ≠ task_id := by
          intro hc
          exact hne0 (by rw [hv0, hc])
        have hstep : edit_task_go task_id upd (t0 :: ts) =
            if v0 = task_id then Except.ok (dictUpdate t0 upd :: ts)
            else Except.map (fun x => t0 :: x) (edit_task_go task_id upd ts) := by
          simp only [edit_task_go]
          rw [hv0]
        rw [hstep, if_neg hv0ne]
        have hrec := ih (fun t ht => hids t (List.mem_cons_of_mem t0 ht)) j
          (Nat.lt_of_succ_lt_succ hi) hmatch
          (fun j' hj' => hbefore (j' + 1) (Nat.succ_lt_succ hj'))
        rw [hrec]
        rfl

/-- Witness for C4: editing the title of the only record of a
one-record store with id 1. -/
theorem edit_task_spec_witness :
    edit_task (Value.int 1) [("title", Value.str "New")]
      [[("id", Value.int 1), ("title", Value.str "Old")]] =
      Except.ok [[("id", Value.int 1), ("title", Value.str "New")]] := by
  have h := (edit_task_spec (Value.int 1) [("title", Value.str "New")]
      [[("id", Value.int 1), ("title", Value.str "Old")]]
      (by
        intro t ht
        simp only [List.mem_singleton] at ht
        subst ht
        exact ⟨Value.int 1, rfl⟩)).2.1
      0 (by decide) (by decide) (fun j hj => absurd hj (Nat.not_lt_zero j))
  rw [h]
  rfl

/-! ## Order lemmas for the sort keys -/

theorem charListLe_refl : ∀ as, charListLe as as = true
  | [] => rfl
  | a :: as => by
    unfold charListLe
    rw [if_neg (Nat.lt_irrefl a.toNat), if_pos rfl]
    exact charListLe_refl as

theorem charListLe_total : ∀ as bs, charListLe as bs = true ∨ charListLe bs as = true
  | [], _ => Or.inl rfl
  | _ :: _, [] => Or.inr rfl
  | a :: as, b :: bs => by
    by_cases h1 : a.toNat < b.toNat
    · left
      unfold charListLe
      rw [if_pos h1]
    · by_cases h2 : a.toNat = b.toNat
      · rcases charListLe_total as bs with h | h
        · left
          unfold charListLe
          rw [if_neg h1, if_pos h2]
          exact h
        · right
          unfold charListLe
          rw [if_neg (by omega : ¬b.toNat < a.toNat), if_pos h2.symm]
          exact h
      · right
        unfold charListLe
        rw [if_pos (by omega : b.toNat < a.toNat)]

theorem charListLe_trans :
    ∀ as bs cs, charListLe as bs = true → charListLe bs cs = true → charListLe as cs = true
  | [], _, _ => fun _ _ => rfl
  | _ :: _, [], _ => fun h _ => by simp [charListLe] at h
  | _ :: _, _ :: _, [] => fun _ h => by simp [charListLe] at h
  | a :: as, b :: bs, c :: cs => fun h1 h2 => by
    unfold charListLe at h1 h2 ⊢
    by_cases hab : a.toNat < b.toNat
    · by_cases hbc : b.toNat < c.toNat
      · rw [if_pos (by omega : a.toNat < c.toNat)]
      · by_cases hbc2 : b.toNat = c.toNat
        · rw [if_pos (by omega : a.toNat < c.toNat)]
        · rw [if_neg hbc, if_neg hbc2] at h2
          simp at h2
    · by_cases hab2 : a.toNat = b.toNat
      · rw [if_neg hab, if_pos hab2] at h1
        by_cases hbc : b.toNat < c.toNat
        · rw [if_pos (by omega : a.toNat < c.toNat)]
        · by_cases hbc2 : b.toNat = c.toNat
          · rw [if_neg hbc, if_pos hbc2] at h2
            rw [if_neg (by omega : ¬a.toNat < c.toNat),
              if_pos (by omega : a.toNat = c.toNat)]
            exact charListLe_trans as bs cs h1 h2
          · rw [if_neg hbc, if_neg hbc2] at h2
            simp at h2
      · rw [if_neg hab, if_neg hab2] at h1
        simp at h1

theorem strLe_refl (s : String) : strLe s s := charListLe_refl s.data

theorem strLe_total (s t : String) : strLe s t ∨ strLe t s :=
  charListLe_total s.data t.data

theorem strLe_trans (s t u : String) : strLe s t → strLe t u → strLe s u :=
  charListLe_trans s.data t.data u.data

theorem dateLe_refl (a : Date) : dateLe a a := by
  unfold dateLe
  omega

theorem dateLe_total (a b : Date) : dateLe a b ∨ dateLe b a := by
  unfold dateLe
  omega

theorem dateLe_trans (a b c : Date) : dateLe a b → dateLe b c → dateLe a c := by
  unfold dateLe
  omega

/-! ## keyPairs and stable-sort lemmas -/

theorem keyPairs_map_snd {κ : Type} (f : TaskRec → Option κ) :
    ∀ {ts : List TaskRec} {ps : List (κ × TaskRec)},
      keyPairs f ts = some ps → ps.map Prod.snd = ts
  | [], ps => fun h => by
    unfold keyPairs at h
    simp only [Option.some.injEq] at h
    subst h
    rfl
  | t :: ts, ps => fun h => by
    unfold keyPairs at h
    cases hf : f t with
    | none =>
      rw [hf] at h
      exact absurd h (by simp)
    | some k =>
      rw [hf] at h
      cases hk : keyPairs f ts with
      | none =>
        rw [hk] at h
        exact absurd h (by simp)
      | some ps' =>
        rw [hk] at h
        simp only [Option.some.injEq] at h
        subst h
        simp only [List.map_cons]
        rw [keyPairs_map_snd f hk]

theorem keyPairs_key {κ : Type} (f : TaskRec → Option κ) :
    ∀ {ts : List TaskRec} {ps : List (κ × TaskRec)},
      keyPairs f ts = some ps → ∀ p ∈ ps, f p.2 = some p.1
  | [], ps => fun h p hp => by
    unfold keyPairs at h
    simp only [Option.some.injEq] at h
    subst h
    exact absurd hp (List.not_mem_nil p)
  | t :: ts, ps => fun h p hp => by
    unfold keyPairs at h
    cases hf : f t with
    | none =>
      rw [hf] at h
      exact absurd h (by simp)
    | some k =>
      rw [hf] at h
      cases hk : keyPairs f ts with
      | none =>
        rw [hk] at h
        exact absurd h (by simp)
      | some ps' =>
        rw [hk] at h
        simp only [Option.some.injEq] at h
        subst h
        rcases List.mem_cons.mp hp with hh | hh
        · subst hh
          exact hf
        · exact keyPairs_key f hk p hh

theorem keyPairs_isSome {κ : Type} (f : TaskRec → Option κ) :
    ∀ ts : List TaskRec, (∀ t ∈ ts, (f t).isSome) → ∃ ps, keyPairs f ts = some ps
  | [] => fun _ => ⟨[], rfl⟩
  | t :: ts => fun h => by
    obtain ⟨k, hk⟩ := Option.isSome_iff_exists.mp (h t (List.mem_cons_self t ts))
    obtain ⟨ps, hps⟩ :=
      keyPairs_isSome f ts (fun t' ht' => h t' (List.mem_cons_of_mem t ht'))
    refine ⟨(k, t) :: ps, ?_⟩
    unfold keyPairs
    rw [hk, hps]

/-- A stable sort leaves the subsequence of mutually-tied elements
untouched. -/
theorem insertionSort_filter_tied {α : Type} (r : α → α → Prop) [DecidableRel r]
    (l : List α) (q : α → Bool)
    (hq : ∀ a ∈ l, ∀ b ∈ l, q a = true → q b = true → r a b) :
    (List.insertionSort r l).filter q = l.filter q := by
  have hsub : List.Sublist (l.filter q) l := List.filter_sublist l
  have hpw : (l.filter q).Pairwise r :=
    List.pairwise_of_forall_mem_list (fun a ha b hb =>
      hq a (List.mem_of_mem_filter ha) b (List.mem_of_mem_filter hb)
        (List.of_mem_filter ha) (List.of_mem_filter hb))
  have h1 : List.Sublist (l.filter q) (List.insertionSort r l) :=
    List.sublist_insertionSort hpw hsub
  have h2 : List.Sublist ((l.filter q).filter q) ((List.insertionSort r l).filter q) :=
    h1.filter q
  rw [List.filter_eq_self.mpr (fun a ha => List.of_mem_filter ha)] at h2
  have hperm : ((List.insertionSort r l).filter q).Perm (l.filter q) :=
    (List.perm_insertionSort r l).filter q
  exact (h2.eq_of_length hperm.length_eq.symm).symm

theorem sortWithKeys_perm {κ : Type} (kle : κ → κ → Prop) [DecidableRel kle]
    (ps : List (κ × TaskRec)) :
    (sortWithKeys kle ps).Perm (ps.map Prod.snd) :=
  (List.perm_insertionSort (pairLe kle) ps).map Prod.snd

theorem sortWithKeys_stable {κ : Type} [DecidableEq κ]
    (kle : κ → κ → Prop) [DecidableRel kle] (hrefl : ∀ a : κ, kle a a)
    (f : TaskRec → Option κ) (ts : List TaskRec) (ps : List (κ × TaskRec))
    (hps : keyPairs f ts = some ps) (k : κ) :
    (sortWithKeys kle ps).filter (fun t => decide (f t = some k)) =
      ts.filter (fun t => decide (f t = some k)) := by
  have htied : ∀ a ∈ ps, ∀ b ∈ ps,
      ((fun t => decide (f t = some k)) ∘ Prod.snd) a = true →
      ((fun t => decide (f t = some k)) ∘ Prod.snd) b = true → pairLe kle a b := by
    intro a ha b hb hqa hqb
    have hfa := keyPairs_key f hps a ha
    have hfb := keyPairs_key f hps b hb
    simp only [Function.comp_apply, decide_eq_true_eq] at hqa hqb
    rw [hfa] at hqa
    rw [hfb] at hqb
    have ha1 : a.1 = k := (Option.some.injEq _ _).mp hqa
    have hb1 : b.1 = k := (Option.some.injEq _ _).mp hqb
    unfold pairLe
    rw [ha1, hb1]
    exact hrefl k
  unfold sortWithKeys
  rw [List.filter_map, insertionSort_filter_tied (pairLe kle) ps _ htied,
    ← List.filter_map, keyPairs_map_snd f hps]

theorem sortWithKeys_sorted {κ : Type} (kle : κ → κ → Prop) [DecidableRel kle]
    (htot : ∀ a b : κ, kle a b ∨ kle b a)
    (htr : ∀ a b c : κ, kle a b → kle b c → kle a c)
    (f : TaskRec → Option κ) (ts : List TaskRec) (ps : List (κ × TaskRec))
    (hps : keyPairs f ts = some ps) :
    (sortWithKeys kle ps).Pairwise
      (fun a b => ∀ ka kb, f a = some ka → f b = some kb → kle ka kb) := by
  haveI : IsTotal (κ × TaskRec) (pairLe kle) := ⟨fun a b => htot a.1 b.1⟩
  haveI : IsTrans (κ × TaskRec) (pairLe kle) := ⟨fun a b c hab hbc => htr _ _ _ hab hbc⟩
  have hsorted : (List.insertionSort (pairLe kle) ps).Pairwise (pairLe kle) :=
    List.sorted_insertionSort (pairLe kle) ps
  unfold sortWithKeys
  rw [List.pairwise_map]
  refine hsorted.imp_of_mem ?_
  intro a b ha hb hab ka kb hka hkb
  have hfa := keyPairs_key f hps a ((List.mem_insertionSort (pairLe kle)).mp ha)
  have hfb := keyPairs_key f hps b ((List.mem_insertionSort (pairLe kle)).mp hb)
  rw [hfa] at hka
  rw [hfb] at hkb
  rw [← (Option.some.injEq _ _).mp hka, ← (Option.some.injEq _ _).mp hkb]
  exact hab

/-! ## sort_tasks (C5, C6) -/

/-- C5 counterexample: on the empty task sequence an unrecognized sort
key is a silent no-op, not an error — the empty-input guard returns
`[]` before the key is ever inspected. -/
theorem sort_tasks_empty_unknown_key : sort_tasks [] "bogus" = Except.ok [] := rfl

/-- C5 (amended): for every non-empty task sequence, a sort key outside
`{due_date, priority, category}` raises a hard ValueError
(InvalidArgument); on the empty sequence the sort returns `[]` for any
key, recognized or not. -/
theorem sort_tasks_unknown_key_error (tasks : List TaskRec) (key : String)
    (hne : tasks ≠ [])
    (h1 : key ≠ "due_date") (h2 : key ≠ "priority") (h3 : key ≠ "category") :
    sort_tasks tasks key = Except.error ("Invalid sort_by value: " ++ key) := by
  unfold sort_tasks
  rw [if_neg hne, if_neg h1, if_neg h2, if_neg h3]

/-- Witness for C5 (amended) on a concrete one-record store. -/
theorem sort_tasks_unknown_key_error_witness :
    sort_tasks [[("id", Value.int 1)]] "bogus" =
      Except.error ("Invalid sort_by value: " ++ "bogus") :=
  sort_tasks_unknown_key_error [[("id", Value.int 1)]] "bogus" (by simp)
    (by decide) (by decide) (by decide)

/-- A task conforming to the data model as far as `sort_tasks` reads
it: its priority is one of the strings High/Medium/Low (the domain of
`priority_order`), its category is present as a string, and its
due_date is a string holding a parseable ISO date. -/
def ConformingTask (t : TaskRec) : Prop :=
  (priorityKey t).isSome ∧ (categoryKey t).isSome ∧ (dueKey t).isSome

/-- C6: on task sequences conforming to the data model every
recognized sort key succeeds (the error branches are unreachable) and
returns a permutation of the input; the empty input yields the empty
output for every key; each sort is stable (the subsequence of records
sharing any key value is exactly the input's subsequence, in input
order); and the priority sort orders records by the fixed rank
High = 1 before Medium = 2 before Low = 3, most urgent first. -/
theorem sort_tasks_conforming_spec (tasks : List TaskRec)
    (h : ∀ t ∈ tasks, ConformingTask t) :
    (∀ key, sort_tasks [] key = Except.ok []) ∧
    (∀ key ∈ (["due_date", "priority", "category"] : List String),
      ∃ l, sort_tasks tasks key = Except.ok l ∧ l.Perm tasks) ∧
    (∃ l, sort_tasks tasks "priority" = Except.ok l ∧
      l.Pairwise (fun a b => ∀ ka kb, priorityKey a = some ka →
        priorityKey b = some kb → ka ≤ kb) ∧
      (∀ k, l.filter (fun t => decide (priorityKey t = some k)) =
        tasks.filter (fun t => decide (priorityKey t = some k)))) ∧
    (∃ l, sort_tasks tasks "due_date" = Except.ok l ∧
      ∀ k, l.filter (fun t => decide (dueKey t = some k)) =
        tasks.filter (fun t => decide (dueKey t = some k))) ∧
    (∃ l, sort_tasks tasks "category" = Except.ok l ∧
      ∀ k, l.filter (fun t => decide (categoryKey t = some k)) =
        tasks.filter (fun t => decide (categoryKey t = some k))) ∧
    priority_order (Value.str "High") = some 1 ∧
    priority_order (Value.str "Medium") = some 2 ∧
    priority_order (Value.str "Low") = some 3 := by
  have hA : ∀ key, sort_tasks [] key = Except.ok [] := by
    intro key
    unfold sort_tasks
    rw [if_pos rfl]
  by_cases hnil : tasks = []
  · subst hnil
    refine ⟨hA, ?_, ⟨[], hA _, List.Pairwise.nil, fun _ => rfl⟩,
      ⟨[], hA _, fun _ => rfl⟩, ⟨[], hA _, fun _ => rfl⟩, rfl, rfl, rfl⟩
    intro key _
    exact ⟨[], hA key, List.Perm.refl []⟩
  · obtain ⟨psd, hpsd⟩ := keyPairs_isSome dueKey tasks (fun t ht => (h t ht).2.2)
    obtain ⟨psp, hpsp⟩ := keyPairs_isSome priorityKey tasks (fun t ht => (h t ht).1)
    obtain ⟨psc, hpsc⟩ := keyPairs_isSome categoryKey tasks (fun t ht => (h t ht).2.1)
    have hdue : sort_tasks tasks "due_date" = Except.ok (sortWithKeys dateLe psd) := by
      unfold sort_tasks
      rw [if_neg hnil, if_pos rfl, hpsd]
    have hpri : sort_tasks tasks "priority" =
        Except.ok (sortWithKeys (fun a b : Nat => a ≤ b) psp) := by
      unfold sort_tasks
      rw [if_neg hnil, if_neg (by decide), if_pos rfl, hpsp]
    have hcat : sort_tasks tasks "category" = Except.ok (sortWithKeys strLe psc) := by
      unfold sort_tasks
      rw [if_neg hnil, if_neg (by decide), if_neg (by decide), if_pos rfl, hpsc]
    have hpermd : (sortWithKeys dateLe psd).Perm tasks := by
      have hp := sortWithKeys_perm dateLe psd
      rwa [keyPairs_map_snd dueKey hpsd] at hp
    have hpermp : (sortWithKeys (fun a b : Nat => a ≤ b) psp).Perm tasks := by
      have hp := sortWithKeys_perm (fun a b : Nat => a ≤ b) psp
      rwa [keyPairs_map_snd priorityKey hpsp] at hp
    have hpermc : (sortWithKeys strLe psc).Perm tasks := by
      have hp := sortWithKeys_perm strLe psc
      rwa [keyPairs_map_snd categoryKey hpsc] at hp
    refine ⟨hA, ?_, ?_, ?_, ?_, rfl, rfl, rfl⟩
    · intro key hkey
      simp only [List.mem_cons, List.not_mem_nil, or_false] at hkey
      rcases hkey with rfl | rfl | rfl
      · exact ⟨_, hdue, hpermd⟩
      · exact ⟨_, hpri, hpermp⟩
      · exact ⟨_, hcat, hpermc⟩
    · exact ⟨_, hpri,
        sortWithKeys_sorted (fun a b : Nat => a ≤ b) Nat.le_total
          (fun a b c => Nat.le_trans) priorityKey tasks psp hpsp,
        fun k => sortWithKeys_stable (fun a b : Nat => a ≤ b) Nat.le_refl
          priorityKey tasks psp hpsp k⟩
    · exact ⟨_, hdue,
        fun k => sortWithKeys_stable dateLe dateLe_refl dueKey tasks psd hpsd k⟩
    · exact ⟨_, hcat,
        fun k => sortWithKeys_stable strLe strLe_refl categoryKey tasks psc hpsc k⟩

/-- Witness for C6 on a concrete conforming two-record store. -/
theorem sort_tasks_conforming_spec_witness :
    ∃ l, sort_tasks
      [[("id", Value.int 1), ("priority", Value.str "Low"),
        ("category", Value.str "Work"), ("due_date", Value.str "2024-08-05")],
       [("id", Value.int 2), ("priority", Value.str "High"),
        ("category", Value.str "Personal"), ("due_date", Value.str "2024-08-01")]]
      "priority" = Except.ok l ∧
    l.Perm
      [[("id", Value.int 1), ("priority", Value.str "Low"),
        ("category", Value.str "Work"), ("due_date", Value.str "2024-08-05")],
       [("id", Value.int 2), ("priority", Value.str "High"),
        ("category", Value.str "Personal"), ("due_date", Value.str "2024-08-01")]] := by
  refine (sort_tasks_conforming_spec _ ?_).2.1 "priority" (by simp)
  intro t ht
  simp only [List.mem_cons, List.not_mem_nil, or_false] at ht
  rcases ht with rfl | rfl
  · exact ⟨by decide, by decide, by decide⟩
  · exact ⟨by decide, by decide, by decide⟩

/-! ## create_recurring_tasks (C9, C10) -/

theorem create_recurring_tasks_eq_go (now : String) (task : TaskRec) (instances : Nat)
    (s : String) (base : Date)
    (hdue : pyGet task "due_date" = some (Value.str s))
    (hparse : fromISO s = some base) :
    create_recurring_tasks now task instances =
      create_recurring_go now task base 0 instances := by
  have h1 : create_recurring_tasks now task instances =
      match fromISO s with
      | some base_date => create_recurring_go now task base_date 0 instances
      | none => none := by
    unfold create_recurring_tasks
    rw [hdue]
  rw [h1, hparse]

theorem recurringInstance_fields (now : String) (task : TaskRec) (d : Date) (i : Nat) :
    pyGet (recurringInstance now task d i) "id" = some (Value.int (1 + (i : Int))) ∧
    pyGet (recurringInstance now task d i) "due_date" = some (Value.str (toISO d)) ∧
    pyGet (recurringInstance now task d i) "created_at" = some (Value.str now) ∧
    ∀ k, k ≠ "id" → k ≠ "due_date" → k ≠ "created_at" →
      pyGet (recurringInstance now task d i) k = pyGet task k := by
  unfold recurringInstance
  refine ⟨?_, ?_, pyGet_setKey_self _ _ _, ?_⟩
  · rw [pyGet_setKey_ne _ _ _ _ (by decide), pyGet_setKey_ne _ _ _ _ (by decide)]
    exact pyGet_setKey_self _ _ _
  · rw [pyGet_setKey_ne _ _ _ _ (by decide)]
    exact pyGet_setKey_self _ _ _
  · intro k hk1 hk2 hk3
    rw [pyGet_setKey_ne _ _ _ _ hk3, pyGet_setKey_ne _ _ _ _ hk2,
      pyGet_setKey_ne _ _ _ _ hk1]

theorem create_recurring_go_spec (now : String) (task : TaskRec) (base : Date) :
    ∀ k i, (∀ j, j < k → (addDays base (i + j)).isSome) →
      ∃ l, create_recurring_go now task base i k = some l ∧ l.length = k ∧
        ∀ j, j < k → ∃ d, addDays base (i + j) = some d ∧
          l[j]? = some (recurringInstance now task d (i + j))
  | 0, i => fun _ => ⟨[], rfl, rfl, fun j hj => absurd hj (Nat.not_lt_zero j)⟩
  | k + 1, i => fun h => by
    obtain ⟨d0, hd0⟩ := Option.isSome_iff_exists.mp (h 0 (Nat.succ_pos k))
    rw [Nat.add_zero] at hd0
    obtain ⟨l, hl, hlen, hget⟩ := create_recurring_go_spec now task base k (i + 1)
      (fun j hj => by
        have hj1 := h (j + 1) (Nat.succ_lt_succ hj)
        rwa [show i + (j + 1) = (i + 1) + j by omega] at hj1)
    have hstep : create_recurring_go now task base i (k + 1) =
        match addDays base i with
        | some new_date =>
          match create_recurring_go now task base (i + 1) k with
          | some rest => some (recurringInstance now task new_date i :: rest)
          | none => none
        | none => none := rfl
    refine ⟨recurringInstance now task d0 i :: l, ?_, by simp [hlen], ?_⟩
    · rw [hstep, hd0, hl]
    · intro j hj
      cases j with
      | zero =>
        refine ⟨d0, ?_, by simp⟩
        rw [Nat.add_zero]
        exact hd0
      | succ j2 =>
        obtain ⟨d, hd, hgetj⟩ := hget j2 (Nat.lt_of_succ_lt_succ hj)
        refine ⟨d, ?_, ?_⟩
        · rwa [show i + (j2 + 1) = (i + 1) + j2 by omega]
        · rw [show i + (j2 + 1) = (i + 1) + j2 by omega]
          simpa using hgetj

theorem create_recurring_go_overflow (now : String) (task : TaskRec) (base : Date) :
    ∀ k i j, j < k → addDays base (i + j) = none →
      create_recurring_go now task base i k = none
  | 0, _, j => fun hj _ => absurd hj (Nat.not_lt_zero j)
  | k + 1, i, j => fun hj hnone => by
    have hstep : create_recurring_go now task base i (k + 1) =
        match addDays base i with
        | some new_date =>
          match create_recurring_go now task base (i + 1) k with
          | some rest => some (recurringInstance now task new_date i :: rest)
          | none => none
        | none => none := rfl
    cases hi : addDays base i with
    | none => rw [hstep, hi]
    | some d =>
      cases j with
      | zero =>
        rw [Nat.add_zero, hi] at hnone
        exact absurd hnone (by simp)
      | succ j2 =>
        have hrec := create_recurring_go_overflow now task base k (i + 1) j2
          (Nat.lt_of_succ_lt_succ hj)
          (by rwa [show (i + 1) + j2 = i + (j2 + 1) by omega])
        rw [hstep, hi, hrec]

/-- C9 counterexample: the base date 9999-12-31 is a parseable ISO due
date, yet `create_recurring_tasks` with count 2 raises `OverflowError`
(the second instance's date would pass `datetime.date.max`) instead of
returning two records. -/
theorem create_recurring_tasks_overflow :
    fromISO "9999-12-31" = some ⟨9999, 12, 31⟩ ∧
    create_recurring_tasks "2024-01-01 00:00:00"
      [("due_date", Value.str "9999-12-31")] 2 = none := by
  constructor
  · decide
  · decide

/-- C9 (amended): when the base task's due date parses to `base` and
all of the dates `base, base + 1, ..., base + (instances - 1)` days are
representable, `create_recurring_tasks` returns exactly `instances`
records; the `i`-th carries the due date `base + i` days (rendered back
to ISO), the freshly generated id `generate_unique_id([]) + i`, the
fresh `created_at` stamp of the moment of creation, and every other
field copied verbatim from the base task.  When some stepped date
overflows `datetime.date.max` the call instead raises `OverflowError`
and returns no records. -/
theorem create_recurring_tasks_spec (now : String) (task : TaskRec) (instances : Nat)
    (s : String) (base : Date)
    (hdue : pyGet task "due_date" = some (Value.str s))
    (hparse : fromISO s = some base) :
    ((∀ i, i < instances → (addDays base i).isSome) →
      ∃ l, create_recurring_tasks now task instances = some l ∧
        l.length = instances ∧
        ∀ i, i < instances → ∃ t d, l[i]? = some t ∧ addDays base i = some d ∧
          pyGet t "id" = some (Value.int (1 + (i : Int))) ∧
          pyGet t "due_date" = some (Value.str (toISO d)) ∧
          pyGet t "created_at" = some (Value.str now) ∧
          ∀ k, k ≠ "id" → k ≠ "due_date" → k ≠ "created_at" →
            pyGet t k = pyGet task k) ∧
    (∀ i, i < instances → addDays base i = none →
      create_recurring_tasks now task instances = none) := by
  have heq := create_recurring_tasks_eq_go now task instances s base hdue hparse
  constructor
  · intro hrange
    obtain ⟨l, hl, hlen, hget⟩ := create_recurring_go_spec now task base instances 0
      (fun j hj => by
        rw [Nat.zero_add]
        exact hrange j hj)
    refine ⟨l, heq.trans hl, hlen, ?_⟩
    intro i hi
    obtain ⟨d, hd, hgeti⟩ := hget i hi
    rw [Nat.zero_add] at hd hgeti
    have hfields := recurringInstance_fields now task d i
    exact ⟨recurringInstance now task d i, d, hgeti, hd,
      hfields.1, hfields.2.1, hfields.2.2.1, hfields.2.2.2⟩
  · intro i hi hnone
    rw [heq]
    exact create_recurring_go_overflow now task base instances 0 i hi
      (by rwa [Nat.zero_add])

/-- Witness for C9 (amended) at the spec's example: base due date
2024-08-01 and three instances give due dates 2024-08-01, 2024-08-02,
2024-08-03. -/
theorem create_recurring_tasks_spec_witness :
    ∃ l, create_recurring_tasks "2024-08-04 12:00:00"
        [("title", Value.str "Recurring Task"), ("due_date", Value.str "2024-08-01")] 3 =
        some l ∧
      l.length = 3 ∧
      ∃ t, l[2]? = some t ∧
        pyGet t "due_date" = some (Value.str "2024-08-03") ∧
        pyGet t "title" = some (Value.str "Recurring Task") := by
  obtain ⟨l, hl, hlen, hget⟩ := (create_recurring_tasks_spec "2024-08-04 12:00:00"
    [("title", Value.str "Recurring Task"), ("due_date", Value.str "2024-08-01")] 3
    "2024-08-01" ⟨2024, 8, 1⟩ (by decide) (by decide)).1 (by decide)
  obtain ⟨t, d, ht, hd, -, hdue, -, hother⟩ := hget 2 (by omega)
  refine ⟨l, hl, hlen, t, ht, ?_, ?_⟩
  · rw [hdue]
    have hd2 : d = ⟨2024, 8, 3⟩ := by
      have hadd : addDays ⟨2024, 8, 1⟩ 2 = some ⟨2024, 8, 3⟩ := by decide
      rw [hadd] at hd
      exact ((Option.some.injEq _ _).mp hd).symm
    rw [hd2]
    decide
  · rw [hother "title" (by decide) (by decide) (by decide)]
    rfl

/-- C10 counterexample: at the parseable base due date 9999-12-31 and
count 3 the call raises `OverflowError`, so no instances — and hence no
ids 1, 2, 3 — are ever produced. -/
theorem create_recurring_tasks_ids_overflow :
    fromISO "9999-12-31" = some ⟨9999, 12, 31⟩ ∧
    create_recurring_tasks "2024-01-02 00:00:00"
      [("id", Value.int 7), ("due_date", Value.str "9999-12-31")] 3 = none := by
  constructor
  · decide
  · decide

/-- C10 (amended): whenever the call succeeds — that is, whenever every
stepped date stays representable — the ids assigned by
`create_recurring_tasks` are `generate_unique_id([]) + i = 1 + i` for
loop index `i`, determined without consulting any store and pairwise
distinct among the siblings; on an overflowing base/count the call
raises instead and assigns no ids at all.  For the concrete store
holding a record with id 1, the first generated instance reuses that
existing id. -/
theorem create_recurring_tasks_id_reuse (now : String) (task : TaskRec) (instances : Nat)
    (s : String) (base : Date)
    (hdue : pyGet task "due_date" = some (Value.str s))
    (hparse : fromISO s = some base) :
    generate_unique_id [] = some 1 ∧
    ((∀ i, i < instances → (addDays base i).isSome) →
      ∃ l, create_recurring_tasks now task instances = some l ∧
        l.length = instances ∧
        (∀ i, i < instances → ∃ t, l[i]? = some t ∧
          pyGet t "id" = some (Value.int (1 + (i : Int)))) ∧
        ∀ i j : Nat, i < instances → j < instances → i ≠ j →
          Value.int (1 + (i : Int)) ≠ Value.int (1 + (j : Int))) ∧
    (∃ l t, create_recurring_tasks "2024-08-02 00:00:00"
        [("id", Value.int 5), ("due_date", Value.str "2024-08-01")] 1 = some l ∧
      l[0]? = some t ∧
      pyGet t "id" = some (Value.int 1) ∧
      pyGet [("id", Value.int 1), ("title", Value.str "existing")] "id" =
        some (Value.int 1)) := by
  refine ⟨rfl, ?_, ?_⟩
  · intro hrange
    have heq := create_recurring_tasks_eq_go now task instances s base hdue hparse
    obtain ⟨l, hl, hlen, hget⟩ := create_recurring_go_spec now task base instances 0
      (fun j hj => by
        rw [Nat.zero_add]
        exact hrange j hj)
    refine ⟨l, heq.trans hl, hlen, ?_, ?_⟩
    · intro i hi
      obtain ⟨d, hd, hgeti⟩ := hget i hi
      rw [Nat.zero_add] at hgeti
      exact ⟨recurringInstance now task d i, hgeti,
        (recurringInstance_fields now task d i).1⟩
    · intro i j _ _ hij hc
      simp only [Value.int.injEq] at hc
      omega
  · refine ⟨[recurringInstance "2024-08-02 00:00:00"
        [("id", Value.int 5), ("due_date", Value.str "2024-08-01")] ⟨2024, 8, 1⟩ 0],
      recurringInstance "2024-08-02 00:00:00"
        [("id", Value.int 5), ("due_date", Value.str "2024-08-01")] ⟨2024, 8, 1⟩ 0,
      ?_, by simp, ?_, rfl⟩
    · decide
    · decide

/-- Witness for C10 (amended) at a concrete base task and count. -/
theorem create_recurring_tasks_id_reuse_witness :
    generate_unique_id [] = some 1 ∧
    ∃ l, create_recurring_tasks "2024-08-02 00:00:00"
        [("due_date", Value.str "2024-08-01")] 2 = some l ∧ l.length = 2 := by
  obtain ⟨hgen, hsucc, -⟩ :=
    create_recurring_tasks_id_reuse "2024-08-02 00:00:00"
      [("due_date", Value.str "2024-08-01")] 2 "2024-08-01" ⟨2024, 8, 1⟩
      (by decide) (by decide)
  obtain ⟨l, hl, hlen, -, -⟩ := hsucc (by decide)
  exact ⟨hgen, l, hl, hlen⟩
